/-
  Verification of the Texas Hold'em engine (texasHoldem-ts).

  Shallow embedding of the engine's core modules into Lean 4:
  - card.ts      : Card, ALL_CARDS, pokersolver string round-trip
  - player.ts    : Player and its pure transitions (placeBet, fold, ...)
  - action.ts    : Action, LegalActions, computeLegalActions, validateAction
  - pot.ts       : collectBets (min-bet sweep), mergePots, awardPots
  - betting.ts   : BettingRoundState, createBettingRound, applyAction
  - hand.ts      : HandState, startHand, act, advancePhase, performShowdown
  - table.ts     : TableState, act

  Conventions used throughout the embedding:
  - Chip amounts and seat indices are `Nat` (the TS brands are non-negative
    integers; the brand constructor rejects negatives, and every subtraction
    performed by the engine is guarded so the difference is non-negative at
    the points the claims quantify over).
  - TS strings of the card codec are modelled as `List Char`.
  - `ReadonlySet`/`HashSet` values are modelled as duplicate-free `List Nat`
    in insertion order (`setAdd` mirrors `Set.add`).
  - `Either`/thrown brand errors are modelled with `Except`.
  - The external hand-ranking oracle (evaluator.ts wraps pokersolver) is a
    parameter `rank : Card × Card → List Card → Int` of the hand lifecycle:
    the engine only ever compares the numeric `rank` field of `HandRank`.
-/
import Mathlib

deriving instance DecidableEq for Except

namespace Holdem

/-! ## card.ts -/

/-- A playing card: `rank ∈ 2..14`, `suit ∈ {c,d,h,s}` (card.ts `Card`).
The rank/suit refinements live in the TS type system; here invalid values
are simply outside `ALL_CARDS`. -/
structure Card where
  rank : Nat
  suit : Char
deriving DecidableEq, Repr

/-- card.ts `RANKS`: all ranks in ascending order. -/
def RANKS : List Nat := [2, 3, 4, 5, 6, 7, 8, 9, 10, 11, 12, 13, 14]

/-- card.ts `SUITS`: all suits in alphabetical order. -/
def SUITS : List Char := ['c', 'd', 'h', 's']

/-- card.ts `ALL_CARDS`: the 52-card universe, rank-major. -/
def ALL_CARDS : List Card :=
  RANKS.flatMap (fun rank => SUITS.map (fun suit => ⟨rank, suit⟩))

/-- card.ts `RANK_TO_CHAR`: the rank-to-character record, as key/value
pairs. -/
def RANK_TO_CHAR : List (Nat × Char) :=
  [(2, '2'), (3, '3'), (4, '4'), (5, '5'), (6, '6'), (7, '7'), (8, '8'),
   (9, '9'), (10, 'T'), (11, 'J'), (12, 'Q'), (13, 'K'), (14, 'A')]

/-- card.ts `CHAR_TO_RANK`: the inverse record used by `cardFromString`. -/
def CHAR_TO_RANK : List (Char × Nat) :=
  RANK_TO_CHAR.map (fun e => (e.2, e.1))

/-- Total lookup into `RANK_TO_CHAR` (the record is total on the 13 ranks;
the fallback is unreachable for cards of `ALL_CARDS`). -/
def rankToChar (r : Nat) : Char :=
  ((RANK_TO_CHAR.find? (fun e => e.1 == r)).map (·.2)).getD '?'

/-- Partial lookup into `CHAR_TO_RANK` (`CHAR_TO_RANK[rankChar]` is
`undefined` off the table). -/
def charToRank (c : Char) : Option Nat :=
  (CHAR_TO_RANK.find? (fun e => e.1 == c)).map (·.2)

/-- card.ts `isSuit`. -/
def isSuit (c : Char) : Bool := SUITS.contains c

/-- card.ts `InvalidCard` error payload. -/
structure InvalidCard where
  input : List Char
  reason : String
deriving DecidableEq, Repr

/-- card.ts `toPokersolverString`: two-character pokersolver code,
modelled as a `List Char`. -/
def toPokersolverString (c : Card) : List Char :=
  [rankToChar c.rank, c.suit]

/-- card.ts `cardFromString`: parse a two-character string back to a card.
The source checks `length == 2`, then the rank character, then the suit
character, in that order. -/
def cardFromString (s : List Char) : Except InvalidCard Card :=
  match s with
  | [rankChar, suitChar] =>
    match charToRank rankChar with
    | none => .error ⟨s, "Invalid rank character"⟩
    | some rank =>
      if isSuit suitChar then .ok ⟨rank, suitChar⟩
      else .error ⟨s, "Invalid suit character"⟩
  | _ => .error ⟨s, "Expected 2 chars"⟩

/-! ## player.ts -/

/-- player.ts `Player`: immutable per-hand snapshot. -/
structure Player where
  seatIndex : Nat
  chips : Nat
  currentBet : Nat
  isAllIn : Bool
  isFolded : Bool
  holeCards : Option (Card × Card)
deriving DecidableEq, Repr

/-- player.ts `createPlayer`. -/
def createPlayer (seatIndex chips : Nat) : Player :=
  ⟨seatIndex, chips, 0, false, false, none⟩

/-- player.ts `placeBet`: move `amount` chips from the stack to the
current bet; the all-in flag is recomputed from the new stack.  The TS
caller contract is `amount ≤ player.chips` (the `Chips` brand throws on a
negative difference); `Nat` subtraction agrees with the source under that
contract. -/
def placeBet (player : Player) (amount : Nat) : Player :=
  let newChips := player.chips - amount
  { player with
      chips := newChips
      currentBet := player.currentBet + amount
      isAllIn := newChips == 0 }

/-- player.ts `fold`. -/
def foldPlayer (player : Player) : Player :=
  { player with isFolded := true }

/-- player.ts `winChips`. -/
def winChips (player : Player) (amount : Nat) : Player :=
  { player with chips := player.chips + amount }

/-- player.ts `collectBet`: reset the current bet to 0. -/
def collectBet (player : Player) : Player :=
  { player with currentBet := 0 }

/-- player.ts `dealCards`. -/
def dealCards (player : Player) (cards : Card × Card) : Player :=
  { player with holeCards := some cards }

/-- player.ts `clearHand`. -/
def clearHand (player : Player) : Player :=
  { player with currentBet := 0, isAllIn := false, isFolded := false, holeCards := none }

/-- player.ts `canAct`: not folded, not all-in, and chips left. -/
def canAct (player : Player) : Bool :=
  !player.isFolded && !player.isAllIn && player.chips > 0

/-! ## action.ts -/

/-- action.ts `Action` tagged enum. -/
inductive Action where
  | Fold
  | Check
  | Call
  | Bet (amount : Nat)
  | Raise (amount : Nat)
  | AllIn
deriving DecidableEq, Repr

/-- error.ts `PokerError`: the closed error sum of the engine. -/
inductive PokerError where
  | InvalidAction (action : String) (reason : String)
  | NotPlayersTurn (seat : Nat) (expectedSeat : Nat)
  | InvalidGameState (state : String) (reason : String)
  | InsufficientChips (seat : Nat) (required : Nat) (available : Nat)
  | SeatOccupied (seat : Nat)
  | SeatEmpty (seat : Nat)
  | TableFull
  | NotEnoughPlayers (count : Nat) (minimum : Nat)
  | HandInProgress
  | NoHandInProgress
deriving DecidableEq, Repr

/-- action.ts `LegalActions` descriptor. -/
structure LegalActions where
  canFold : Bool
  canCheck : Bool
  callAmount : Option Nat
  minBet : Option Nat
  maxBet : Option Nat
  minRaise : Option Nat
  maxRaise : Option Nat
  canAllIn : Bool
  allInAmount : Nat
deriving DecidableEq, Repr

/-- action.ts `computeLegalActions`.  The source computes `callGap` on raw
JS numbers, where it may be negative; that is mirrored with `Int`. -/
def computeLegalActions (playerChips playerCurrentBet biggestBet minRaiseIncrement : Nat)
    (hasBetThisRound : Bool) : LegalActions :=
  let canFold := true
  let canCheck : Bool := playerCurrentBet ≥ biggestBet
  let callGap : Int := (biggestBet : Int) - (playerCurrentBet : Int)
  let canCall : Bool := callGap > 0 && (playerChips : Int) ≥ callGap
  let callAmount : Option Nat := if canCall then some callGap.toNat else none
  let minBet : Option Nat :=
    if !hasBetThisRound && playerChips ≥ minRaiseIncrement then some minRaiseIncrement else none
  let maxBet : Option Nat :=
    if !hasBetThisRound && playerChips ≥ minRaiseIncrement then some playerChips else none
  let minRaiseTo := biggestBet + minRaiseIncrement
  let maxRaiseTo := playerChips + playerCurrentBet
  let minRaise : Option Nat :=
    if hasBetThisRound && maxRaiseTo ≥ minRaiseTo then some minRaiseTo else none
  let maxRaise : Option Nat :=
    if hasBetThisRound && maxRaiseTo ≥ minRaiseTo then some maxRaiseTo else none
  let canAllIn : Bool := playerChips > 0
  ⟨canFold, canCheck, callAmount, minBet, maxBet, minRaise, maxRaise, canAllIn, playerChips⟩

/-- action.ts `validateAction`: map an intended action to itself or to an
`InvalidAction` error, by the rules of the `LegalActions` descriptor. -/
def validateAction (action : Action) (legal : LegalActions) : Except PokerError Action :=
  match action with
  | .Fold =>
    if legal.canFold then .ok .Fold
    else .error (.InvalidAction "Fold" "Cannot fold right now")
  | .Check =>
    if legal.canCheck then .ok .Check
    else .error (.InvalidAction "Check" "Cannot check - there is an outstanding bet to match")
  | .Call =>
    if legal.callAmount.isSome then .ok .Call
    else .error (.InvalidAction "Call" "Cannot call - no outstanding bet, or insufficient chips")
  | .Bet a =>
    match legal.minBet, legal.maxBet with
    | some minB, some maxB =>
      if a < minB then .error (.InvalidAction "Bet" "Bet is below the minimum")
      else if a > maxB then .error (.InvalidAction "Bet" "Bet exceeds the maximum")
      else .ok (.Bet a)
    | _, _ => .error (.InvalidAction "Bet" "Cannot bet - a bet or raise has already been made")
  | .Raise a =>
    match legal.minRaise, legal.maxRaise with
    | some minR, some maxR =>
      if a < minR then .error (.InvalidAction "Raise" "Raise is below the minimum")
      else if a > maxR then .error (.InvalidAction "Raise" "Raise exceeds the maximum")
      else .ok (.Raise a)
    | _, _ => .error (.InvalidAction "Raise" "Cannot raise - no bet has been made, or insufficient chips")
  | .AllIn =>
    if legal.canAllIn then .ok .AllIn
    else .error (.InvalidAction "AllIn" "Cannot go all-in with zero chips")

/-! ## pot.ts -/

/-- Stable insertion into a sorted list (used to model the stable JS
`Array.sort`). -/
def insertLe {α : Type} (le : α → α → Bool) (x : α) : List α → List α
  | [] => [x]
  | y :: ys => if le x y then x :: y :: ys else y :: insertLe le x ys

/-- Stable sort by a boolean comparator, modelling the stable JS
`Array.sort` (insertion sort; agrees with any stable sort). -/
def sortBy {α : Type} (le : α → α → Bool) (l : List α) : List α :=
  l.foldr (insertLe le) []

/-- pot.ts `Pot`: an amount plus the seats eligible to win it. -/
structure Pot where
  amount : Nat
  eligibleSeats : List Nat
deriving DecidableEq, Repr

/-- pot.ts `createPot`. -/
def createPot (amount : Nat) (eligibleSeats : List Nat) : Pot :=
  ⟨amount, eligibleSeats⟩

/-- pot.ts `BettingPlayer`: the minimal player shape `collectBets` needs. -/
structure BettingPlayer where
  seatIndex : Nat
  currentBet : Nat
  isFolded : Bool
  isAllIn : Bool
deriving DecidableEq, Repr

/-- Minimum of a non-empty list (empty list maps to 0).  Mirrors the
`reduce(min, Infinity)` over a non-empty filtered array in `collectBets`. -/
def listMinNat : List Nat → Nat
  | [] => 0
  | x :: xs => xs.foldl Nat.min x

theorem foldl_min_pos {x : Nat} {xs : List Nat} (hx : 0 < x) (hxs : ∀ y ∈ xs, 0 < y) :
    0 < xs.foldl Nat.min x := by
  induction xs generalizing x with
  | nil => exact hx
  | cons y ys ih =>
    refine ih (by
      have hy := hxs y (by simp)
      exact lt_min hx hy) (fun z hz => hxs z (by simp [hz]))

theorem listMinNat_pos {xs : List Nat} (hne : xs ≠ []) (hpos : ∀ y ∈ xs, 0 < y) :
    0 < listMinNat xs := by
  cases xs with
  | nil => exact absurd rfl hne
  | cons x rest =>
    exact foldl_min_pos (hpos x (by simp)) (fun z hz => hpos z (by simp [hz]))

/-- Sum of a list after a fold-style accumulation, as used by the pot-amount
loop in `collectBets`. -/
theorem foldl_add_eq_sum_map {α : Type} (f : α → Nat) (l : List α) (acc : Nat) :
    l.foldl (fun a p => a + f p) acc = acc + (l.map f).sum := by
  induction l generalizing acc with
  | nil => simp
  | cons x xs ih => simp [ih, Nat.add_assoc]

theorem sum_map_le {α : Type} (f g : α → Nat) (l : List α)
    (hle : ∀ a ∈ l, f a ≤ g a) : (l.map f).sum ≤ (l.map g).sum := by
  induction l with
  | nil => simp
  | cons x xs ih =>
    simp only [List.map_cons, List.sum_cons]
    have h1 := hle x (List.mem_cons_self x xs)
    have h2 := ih (fun a ha => hle a (List.mem_cons_of_mem x ha))
    omega

theorem sum_map_lt {α : Type} (f g : α → Nat) (l : List α)
    (hle : ∀ a ∈ l, f a ≤ g a) (a₀ : α) (ha₀ : a₀ ∈ l) (hlt : f a₀ < g a₀) :
    (l.map f).sum < (l.map g).sum := by
  induction l with
  | nil => cases ha₀
  | cons x xs ih =>
    simp only [List.map_cons, List.sum_cons]
    rcases List.mem_cons.mp ha₀ with h | h
    · subst h
      have h2 := sum_map_le f g xs (fun a ha => hle a (List.mem_cons_of_mem _ ha))
      omega
    · have h1 := hle x (List.mem_cons_self _ _)
      have h2 := ih (fun a ha => hle a (List.mem_cons_of_mem _ ha)) h
      omega

theorem sum_map_map_lt {α : Type} (u : α → α) (f : α → Nat) (l : List α)
    (hle : ∀ a ∈ l, f (u a) ≤ f a) (a₀ : α) (ha₀ : a₀ ∈ l) (hlt : f (u a₀) < f a₀) :
    ((l.map u).map f).sum < (l.map f).sum := by
  rw [List.map_map]
  exact sum_map_lt (f ∘ u) f l hle a₀ ha₀ hlt

/-- pot.ts `collectBets`, sweep loop: the minimum positive outstanding bet
of the current iteration (`reduce(min, Infinity)` over the filtered array). -/
def sweepMin (ps : List BettingPlayer) : Nat :=
  listMinNat ((ps.filter (fun p => decide (0 < p.currentBet))).map (·.currentBet))

/-- pot.ts `collectBets`, sweep loop: the eligible seats of the pot emitted
this iteration (non-folded contributors of at least the min-bet). -/
def sweepEligible (ps : List BettingPlayer) : List Nat :=
  (ps.filter (fun p => decide (sweepMin ps ≤ p.currentBet) && !p.isFolded)).map (·.seatIndex)

/-- pot.ts `collectBets`, sweep loop: the amount collected this iteration
(`min(currentBet, m)` from every player with a positive bet). -/
def sweepAmount (ps : List BettingPlayer) : Nat :=
  ps.foldl (fun acc p =>
    if 0 < p.currentBet then acc + Nat.min p.currentBet (sweepMin ps) else acc) 0

/-- pot.ts `collectBets`, sweep loop: the players after this iteration's
collection. -/
def sweepUpdate (ps : List BettingPlayer) : List BettingPlayer :=
  ps.map (fun p =>
    if 0 < p.currentBet then
      { p with currentBet := p.currentBet - Nat.min p.currentBet (sweepMin ps) }
    else p)

theorem sweepMin_pos (ps : List BettingPlayer)
    (h : ps.any (fun p => decide (0 < p.currentBet)) = true) : 0 < sweepMin ps := by
  obtain ⟨p₀, hp₀mem, hp₀⟩ := List.any_eq_true.mp h
  have hp₀pos : 0 < p₀.currentBet := by simpa using hp₀
  apply listMinNat_pos
  · have hmem : p₀ ∈ ps.filter (fun p => decide (0 < p.currentBet)) :=
      List.mem_filter.mpr ⟨hp₀mem, by simpa using hp₀pos⟩
    intro hcontra
    rw [List.map_eq_nil_iff] at hcontra
    rw [hcontra] at hmem
    cases hmem
  · intro y hy
    obtain ⟨q, hq, hqy⟩ := List.mem_map.mp hy
    have := (List.mem_filter.mp hq).2
    simp only [decide_eq_true_eq] at this
    omega

/-- Each sweep iteration strictly decreases the total outstanding bets. -/
theorem sweepUpdate_sum_lt (ps : List BettingPlayer)
    (h : ps.any (fun p => decide (0 < p.currentBet)) = true) :
    ((sweepUpdate ps).map (·.currentBet)).sum < (ps.map (·.currentBet)).sum := by
  obtain ⟨p₀, hp₀mem, hp₀⟩ := List.any_eq_true.mp h
  have hp₀pos : 0 < p₀.currentBet := by simpa using hp₀
  have hmpos := sweepMin_pos ps h
  have hsub : ∀ x y : Nat, 0 < x → 0 < y → x - Nat.min x y < x := by
    intro x y hx hy
    simp only [Nat.min_def]
    split <;> omega
  refine sum_map_map_lt _ _ ps ?_ p₀ hp₀mem ?_
  · intro a _
    dsimp only
    split
    · exact Nat.sub_le _ _
    · exact Nat.le_refl _
  · dsimp only
    split
    · exact hsub _ _ hp₀pos hmpos
    · omega

/-- pot.ts `collectBets`, step 1: the min-bet sweep loop, with an explicit
fuel so the recursion is structural (each iteration strictly decreases the
total outstanding bets by `sweepUpdate_sum_lt`, so any fuel above that total
runs the loop to completion; `sweepPots` below supplies such a fuel). -/
def sweepPotsFuel : Nat → List BettingPlayer → List Pot
  | 0, _ => []
  | fuel + 1, ps =>
    if ps.any (fun p => decide (0 < p.currentBet)) then
      createPot (sweepAmount ps) (sweepEligible ps) :: sweepPotsFuel fuel (sweepUpdate ps)
    else []

/-- pot.ts `collectBets`, step 1: the min-bet sweep loop.  While some player
has `currentBet > 0`: take the minimum positive bet `m`, collect
`min(currentBet, m)` from every player with a positive bet, and emit a pot
whose eligible seats are the non-folded players with `currentBet ≥ m`. -/
def sweepPots (ps : List BettingPlayer) : List Pot :=
  sweepPotsFuel ((ps.map (·.currentBet)).sum + 1) ps

/-- Any sufficient fuel runs the sweep loop to the same result. -/
theorem sweepPotsFuel_congr (fuel : Nat) : ∀ fuel2 (ps : List BettingPlayer),
    (ps.map (·.currentBet)).sum < fuel → (ps.map (·.currentBet)).sum < fuel2 →
    sweepPotsFuel fuel ps = sweepPotsFuel fuel2 ps := by
  induction fuel with
  | zero => intro fuel2 ps h1 _; omega
  | succ fuel ih =>
    intro fuel2 ps h1 h2
    cases fuel2 with
    | zero => omega
    | succ fuel2 =>
      simp only [sweepPotsFuel]
      by_cases hany : ps.any (fun p => decide (0 < p.currentBet)) = true
      · rw [if_pos hany, if_pos hany]
        have hlt := sweepUpdate_sum_lt ps hany
        rw [ih fuel2 (sweepUpdate ps) (by omega) (by omega)]
      · rw [if_neg hany, if_neg hany]

/-- Unfolding equation of the sweep loop. -/
theorem sweepPots_unfold (ps : List BettingPlayer) :
    sweepPots ps =
      if ps.any (fun p => decide (0 < p.currentBet)) then
        createPot (sweepAmount ps) (sweepEligible ps) :: sweepPots (sweepUpdate ps)
      else [] := by
  unfold sweepPots
  conv_lhs => rw [sweepPotsFuel]
  by_cases hany : ps.any (fun p => decide (0 < p.currentBet)) = true
  · rw [if_pos hany, if_pos hany]
    have hlt := sweepUpdate_sum_lt ps hany
    congr 1
    exact sweepPotsFuel_congr _ _ (sweepUpdate ps) (by omega) (by omega)
  · rw [if_neg hany, if_neg hany]

/-- pot.ts `sameSeatSet`: order-insensitive equality of two seat arrays
(equal lengths and equal ascending sorts). -/
def sameSeatSet (a b : List Nat) : Bool :=
  a.length == b.length &&
    (sortBy (fun x y => x ≤ y) a) == (sortBy (fun x y => x ≤ y) b)

/-- pot.ts `mergePots`: if the last existing pot has the same eligible-seat
set as the first incoming pot, combine their amounts; append the rest. -/
def mergePots (existing incoming : List Pot) : List Pot :=
  match incoming with
  | [] => existing
  | firstIncoming :: restIncoming =>
    match existing.getLast? with
    | none => incoming
    | some lastExisting =>
      if sameSeatSet lastExisting.eligibleSeats firstIncoming.eligibleSeats then
        existing.dropLast ++
          (createPot (lastExisting.amount + firstIncoming.amount) lastExisting.eligibleSeats
            :: restIncoming)
      else existing ++ incoming

/-- pot.ts `collectBets`: sweep the outstanding bets into pots, merge with
the existing pots, and return the players with zeroed bets. -/
def collectBets (players : List BettingPlayer) (existingPots : List Pot) :
    List Pot × List BettingPlayer :=
  (mergePots existingPots (sweepPots players),
   players.map (fun p => { p with currentBet := 0 }))

/-- pot.ts `totalPotSize`. -/
def totalPotSize (pots : List Pot) : Nat :=
  (pots.map (·.amount)).sum

/-- pot.ts `clockwiseOrder`: rotate `seatOrder` so the first seat after the
button comes first (`seatOrder` unchanged when the button is absent). -/
def clockwiseOrder (buttonSeat : Nat) (seatOrder : List Nat) : List Nat :=
  match seatOrder.findIdx? (fun s => s == buttonSeat) with
  | none => seatOrder
  | some btnIdx =>
    let afterButton := (btnIdx + 1) % seatOrder.length
    seatOrder.drop afterButton ++ seatOrder.take afterButton

/-- pot.ts `awardPots`, per-pot: the eligible seats that actually have a
hand. -/
def potContenders (handRank : Nat → Option Int) (pot : Pot) : List Nat :=
  pot.eligibleSeats.filter (fun s => (handRank s).isSome)

/-- Rank of a seat known to have a hand (`playerHands.get(seat)!.rank`). -/
def rankOfSeat (handRank : Nat → Option Int) (s : Nat) : Int :=
  (handRank s).getD 0

/-- pot.ts `awardPots`, per-pot: best rank among contenders (the source
folds `max` starting from `-Infinity`; over a non-empty contender list this
is the list maximum, and the empty case is never consulted). -/
def potBestRank (handRank : Nat → Option Int) (pot : Pot) : Int :=
  match potContenders handRank pot with
  | [] => 0
  | c :: cs => (cs.map (rankOfSeat handRank)).foldl max (rankOfSeat handRank c)

/-- pot.ts `awardPots`, per-pot: contenders sharing the best rank. -/
def potWinners (handRank : Nat → Option Int) (pot : Pot) : List Nat :=
  (potContenders handRank pot).filter (fun s => rankOfSeat handRank s == potBestRank handRank pot)

/-- pot.ts `awardPots`, body of the per-pot loop: no contenders awards
nothing, a single contender takes the whole pot, and ties split evenly with
the remainder going to the first winner clockwise from the button. -/
def awardsForPot (handRank : Nat → Option Int) (buttonSeat : Nat) (seatOrder : List Nat)
    (pot : Pot) : List (Nat × Nat) :=
  match potContenders handRank pot with
  | [] => []
  | [c] => [(c, pot.amount)]
  | _ :: _ :: _ =>
    let winnerSeats := potWinners handRank pot
    let share := pot.amount / winnerSeats.length
    let remainder := pot.amount - share * winnerSeats.length
    let clockwiseFromButton := clockwiseOrder buttonSeat seatOrder
    let oddChipRecipient := clockwiseFromButton.find? (fun s => winnerSeats.contains s)
    winnerSeats.map (fun seat =>
      (seat, if oddChipRecipient == some seat then share + remainder else share))

/-- pot.ts `awardPots`: the per-pot awards concatenated in pot order. -/
def awardPots (pots : List Pot) (handRank : Nat → Option Int) (buttonSeat : Nat)
    (seatOrder : List Nat) : List (Nat × Nat) :=
  pots.flatMap (awardsForPot handRank buttonSeat seatOrder)

/-! ## event.ts -/

/-- event.ts `GameEvent`: the append-only event sum. -/
inductive GameEvent where
  | HandStarted (handId : String) (button : Nat) (players : List Nat)
  | BlindsPosted (sbSeat sbAmount bbSeat bbAmount : Nat)
  | HoleCardsDealt (seat : Nat)
  | PlayerActed (seat : Nat) (action : Action)
  | BettingRoundEnded (round : String)
  | CommunityCardsDealt (cards : List Card) (phase : String)
  | ShowdownStarted
  | PotAwarded (seat amount potIndex : Nat)
  | HandEnded
  | PlayerSatDown (seat chips : Nat)
  | PlayerStoodUp (seat : Nat)
deriving DecidableEq, Repr

/-! ## betting.ts -/

/-- betting.ts `BettingRoundState`.  `actedThisRound` is a JS `Set` kept as
a duplicate-free list in insertion order. -/
structure BettingRoundState where
  name : String
  players : List Player
  activeIndex : Nat
  activeSeatOrder : List Nat
  biggestBet : Nat
  minRaise : Nat
  lastAggressor : Option Nat
  isComplete : Bool
  hasBetThisRound : Bool
  actedThisRound : List Nat
deriving DecidableEq, Repr

/-- JS `Set.add`: append the element unless already present. -/
def setAdd (s : List Nat) (x : Nat) : List Nat :=
  if s.contains x then s else s ++ [x]

/-- betting.ts `getPlayer`. -/
def getPlayer (state : BettingRoundState) (seat : Nat) : Option Player :=
  state.players.find? (fun p => p.seatIndex == seat)

/-- betting.ts `activePlayer`: seat at `activeSeatOrder[activeIndex]` unless
the round is complete or the queue is empty. -/
def activePlayer (state : BettingRoundState) : Option Nat :=
  if state.isComplete || state.activeSeatOrder.isEmpty then none
  else state.activeSeatOrder.get? state.activeIndex

/-- betting.ts `createBettingRound`: active queue is the `canAct` players
sorted by seat and rotated so the first seat `≥ firstToActSeat` leads. -/
def createBettingRound (name : String) (players : List Player) (firstToActSeat : Nat)
    (biggestBet : Nat) (minRaise : Nat) : BettingRoundState :=
  let activePlayers := players.filter canAct
  let sorted := sortBy (fun a b => a.seatIndex ≤ b.seatIndex) activePlayers
  let rotated :=
    match sorted.findIdx? (fun p => p.seatIndex ≥ firstToActSeat) with
    | none => sorted
    | some firstIdx => sorted.drop firstIdx ++ sorted.take firstIdx
  let activeSeatOrder := rotated.map (·.seatIndex)
  let nonFolded := players.filter (fun p => !p.isFolded)
  let isComplete : Bool := nonFolded.length ≤ 1 || activeSeatOrder.length ≤ 1
  { name := name
    players := players
    activeIndex := 0
    activeSeatOrder := activeSeatOrder
    biggestBet := biggestBet
    minRaise := minRaise
    lastAggressor := none
    isComplete := isComplete
    hasBetThisRound := biggestBet > 0
    actedThisRound := [] }

/-- betting.ts `getLegalActions`: legal actions of the active player (or of
a zero-chip placeholder when there is none). -/
def getLegalActions (state : BettingRoundState) : LegalActions :=
  match activePlayer state with
  | none => computeLegalActions 0 0 state.biggestBet state.minRaise state.hasBetThisRound
  | some seat =>
    match getPlayer state seat with
    | none => computeLegalActions 0 0 state.biggestBet state.minRaise state.hasBetThisRound
    | some player =>
      computeLegalActions player.chips player.currentBet state.biggestBet state.minRaise
        state.hasBetThisRound

/-- betting.ts `checkComplete`: the round is complete when at most one
non-folded player remains, or the queue is empty, or everyone still queued
has acted (the source guards this last test with `acted.size > 0`). -/
def checkComplete (state : BettingRoundState) : Bool :=
  let nonFolded := state.players.filter (fun p => !p.isFolded)
  if nonFolded.length ≤ 1 then true
  else if state.activeSeatOrder.isEmpty then true
  else if decide (0 < state.actedThisRound.length) &&
      state.activeSeatOrder.all (fun s => state.actedThisRound.contains s) then true
  else false

/-- Outcome of the action-specific portion of betting.ts `applyAction`:
the updated acting player, the new round bookkeeping, and whether the seat
leaves the active queue. -/
structure ActionOutcome where
  updatedPlayer : Player
  newBiggestBet : Nat
  newMinRaise : Nat
  newLastAggressor : Option Nat
  newHasBetThisRound : Bool
  newActedThisRound : List Nat
  removeFromActive : Bool

/-- betting.ts `applyAction`, the `switch (action._tag)` block. -/
def actionSwitch (state : BettingRoundState) (seat : Nat) (player : Player)
    (action : Action) : ActionOutcome :=
  match action with
  | .Fold =>
    ⟨foldPlayer player, state.biggestBet, state.minRaise, state.lastAggressor,
      state.hasBetThisRound, state.actedThisRound, true⟩
  | .Check =>
    ⟨player, state.biggestBet, state.minRaise, state.lastAggressor,
      state.hasBetThisRound, state.actedThisRound, false⟩
  | .Call =>
    let callAmount := state.biggestBet - player.currentBet
    let updated := placeBet player callAmount
    ⟨updated, state.biggestBet, state.minRaise, state.lastAggressor,
      state.hasBetThisRound, state.actedThisRound, updated.isAllIn⟩
  | .Bet a =>
    let updated := placeBet player a
    ⟨updated, player.currentBet + a, a, some seat, true, [], updated.isAllIn⟩
  | .Raise a =>
    let updated := placeBet player (a - player.currentBet)
    ⟨updated, a, a - state.biggestBet, some seat, true, [], updated.isAllIn⟩
  | .AllIn =>
    let allInTotal := player.currentBet + player.chips
    let updated := placeBet player player.chips
    if state.biggestBet < allInTotal then
      let raiseIncrement := allInTotal - state.biggestBet
      ⟨updated, allInTotal,
        if state.minRaise ≤ raiseIncrement then raiseIncrement else state.minRaise,
        some seat, true, [], true⟩
    else
      ⟨updated, state.biggestBet, state.minRaise, state.lastAggressor,
        state.hasBetThisRound, state.actedThisRound, true⟩

/-- betting.ts `applyAction`, steps 5-9 (after turn check and validation):
record the actor, update the queue, the players and the turn index, then run
the completion check and emit events. -/
def applyActionCore (state : BettingRoundState) (seat : Nat) (player : Player)
    (action : Action) : BettingRoundState × List GameEvent :=
  let o := actionSwitch state seat player action
  let newActedThisRound := setAdd o.newActedThisRound seat
  let newActiveSeatOrder :=
    if o.removeFromActive then state.activeSeatOrder.erase seat else state.activeSeatOrder
  let newPlayers := state.players.map (fun p =>
    if p.seatIndex == o.updatedPlayer.seatIndex then o.updatedPlayer else p)
  let newActiveIndex :=
    if newActiveSeatOrder.isEmpty then 0
    else if o.removeFromActive then
      let removedIdx := state.activeSeatOrder.findIdx (fun s => s == seat)
      if removedIdx ≥ newActiveSeatOrder.length then 0 else removedIdx
    else (state.activeIndex + 1) % newActiveSeatOrder.length
  let intermediate : BettingRoundState :=
    { state with
        players := newPlayers
        activeIndex := newActiveIndex
        activeSeatOrder := newActiveSeatOrder
        biggestBet := o.newBiggestBet
        minRaise := o.newMinRaise
        lastAggressor := o.newLastAggressor
        hasBetThisRound := o.newHasBetThisRound
        actedThisRound := newActedThisRound
        isComplete := false }
  let complete := checkComplete intermediate
  let events :=
    GameEvent.PlayerActed seat action ::
      (if complete then [GameEvent.BettingRoundEnded state.name] else [])
  ({ intermediate with isComplete := complete }, events)

/-- betting.ts `applyAction`: turn check, validation, then the pure state
update of `applyActionCore`.  Errors are returned as values and carry no
state. -/
def applyAction (state : BettingRoundState) (seat : Nat) (action : Action) :
    Except PokerError (BettingRoundState × List GameEvent) :=
  match activePlayer state with
  | none => .error (.NotPlayersTurn seat seat)
  | some currentSeat =>
    if seat = currentSeat then
      match validateAction action (getLegalActions state) with
      | .error e => .error e
      | .ok _ =>
        match getPlayer state seat with
        | none => .error (.NotPlayersTurn seat seat)
        | some player => .ok (applyActionCore state seat player action)
    else .error (.NotPlayersTurn seat currentSeat)

/-! ## hand.ts -/

/-- hand.ts `ForcedBets`. -/
structure ForcedBets where
  smallBlind : Nat
  bigBlind : Nat
  ante : Option Nat
deriving DecidableEq, Repr

/-- hand.ts `Phase`. -/
inductive Phase where
  | Preflop
  | Flop
  | Turn
  | River
  | Showdown
  | Complete
deriving DecidableEq, Repr

/-- String form of a phase, as used for event payloads and error states. -/
def phaseToString : Phase → String
  | .Preflop => "Preflop"
  | .Flop => "Flop"
  | .Turn => "Turn"
  | .River => "River"
  | .Showdown => "Showdown"
  | .Complete => "Complete"

/-- hand.ts `HandState`. -/
structure HandState where
  handId : String
  phase : Phase
  players : List Player
  communityCards : List Card
  deck : List Card
  pots : List Pot
  bettingRound : Option BettingRoundState
  button : Nat
  forcedBets : ForcedBets
  events : List GameEvent
  seatOrder : List Nat
deriving DecidableEq, Repr

/-- hand.ts `getPositionalSeatOrder`: non-folded seats sorted ascending and
rotated so the button leads (unrotated if the button seat is absent). -/
def getPositionalSeatOrder (players : List Player) (button : Nat) : List Nat :=
  let activeSeats :=
    sortBy (fun a b => a ≤ b) ((players.filter (fun p => !p.isFolded)).map (·.seatIndex))
  if activeSeats.isEmpty then []
  else
    match activeSeats.findIdx? (fun s => s == button) with
    | none => activeSeats
    | some btnIdx => activeSeats.drop btnIdx ++ activeSeats.take btnIdx

/-- hand.ts `getFirstToActPostflop`: first seat strictly after the button in
`seatOrder` whose player can act, wrapping around to the button itself. -/
def getFirstToActPostflop (seatOrder : List Nat) (button : Nat) (players : List Player) :
    Option Nat :=
  if seatOrder.isEmpty then none
  else
    match (seatOrder.drop 1).find? (fun seat =>
        match players.find? (fun p => p.seatIndex == seat) with
        | some p => canAct p
        | none => false) with
    | some seat => some seat
    | none =>
      match players.find? (fun p => p.seatIndex == button) with
      | some p => if canAct p then some button else none
      | none => none

/-- hand.ts `updatePlayer`: map the updater over the player with the given
seat. -/
def updateHandPlayer (players : List Player) (seat : Nat) (updater : Player → Player) :
    List Player :=
  players.map (fun p => if p.seatIndex == seat then updater p else p)

/-- hand.ts `countActive`. -/
def countActive (players : List Player) : Nat :=
  (players.filter (fun p => !p.isFolded)).length

/-- Projection of a full player onto the `BettingPlayer` shape consumed by
`collectBets` (TS passes the `Player` structurally). -/
def toBettingPlayer (p : Player) : BettingPlayer :=
  ⟨p.seatIndex, p.currentBet, p.isFolded, p.isAllIn⟩

/-- deck.ts `dealHoleCards` as used by hand.ts: two consecutive cards per
seat, sequentially.  The source errors on deck exhaustion, which cannot
occur for a 52-card deck with at most 10 seats; a too-short deck simply
stops dealing here. -/
def dealHoleCards : List Card → List Nat → List (Nat × Card × Card) × List Card
  | deck, [] => ([], deck)
  | c1 :: c2 :: deckRest, seat :: seats =>
    let (assigned, remaining) := dealHoleCards deckRest seats
    ((seat, c1, c2) :: assigned, remaining)
  | deck, _ :: _ => ([], deck)

/-- The external ranking oracle (evaluator.ts `evaluateHoldem`): maps hole
cards and the board to the comparable `rank` field of a `HandRank`. -/
def RankOracle : Type := Card × Card → List Card → Int

/-- hand.ts `performShowdown`, hand-evaluation step: rank every non-folded
player holding cards. -/
def showdownHands (rank : RankOracle) (players : List Player) (community : List Card) :
    List (Nat × Int) :=
  players.filterMap (fun p =>
    match p.holeCards with
    | some hc => if p.isFolded then none else some (p.seatIndex, rank hc community)
    | none => none)

/-- Lookup into the showdown hand map (`playerHands.get`/`has`). -/
def handRankOf (hands : List (Nat × Int)) : Nat → Option Int :=
  fun s => (hands.find? (fun q => q.1 == s)).map (·.2)

/-- hand.ts `performShowdown`, credit loop: walk the pots, recompute each
pot's winners, and pay out the next `|winners|` awards of the flat award
list (pots without contenders are skipped and consume no awards). -/
def creditShowdown (handRank : Nat → Option Int) (players : List Player) :
    List Pot → List (Nat × Nat) → Nat → List Player × List GameEvent
  | [], _, _ => (players, [])
  | pot :: restPots, awards, potIdx =>
    match potContenders handRank pot with
    | [] => creditShowdown handRank players restPots awards (potIdx + 1)
    | _ :: _ =>
      let n := (potWinners handRank pot).length
      let credited := awards.take n
      let players2 := credited.foldl
        (fun acc award => updateHandPlayer acc award.1 (fun p => winChips p award.2)) players
      let events := credited.map (fun award => GameEvent.PotAwarded award.1 award.2 potIdx)
      let (players3, restEvents) :=
        creditShowdown handRank players2 restPots (awards.drop n) (potIdx + 1)
      (players3, events ++ restEvents)

/-- hand.ts `performShowdown`: evaluate hands, award the pots through
pot.ts `awardPots`, credit winners, and complete the hand. -/
def performShowdown (rank : RankOracle) (state : HandState) : HandState :=
  let playerHands := showdownHands rank state.players state.communityCards
  let hr := handRankOf playerHands
  let awards := awardPots state.pots hr state.button state.seatOrder
  let (players2, awardEvents) := creditShowdown hr state.players state.pots awards 0
  { state with
      phase := .Complete
      players := players2
      pots := []
      bettingRound := none
      events := state.events ++ [GameEvent.ShowdownStarted] ++ awardEvents ++ [GameEvent.HandEnded] }

/-- hand.ts `awardToLastPlayer`: all pots go to the first (only) non-folded
player. -/
def awardToLastPlayer (state : HandState) : Except PokerError HandState :=
  match state.players.filter (fun p => !p.isFolded) with
  | [] => .error (.InvalidGameState (phaseToString state.phase) "No active players remaining")
  | winner :: _ =>
    let players2 := state.pots.foldl
      (fun acc pot => updateHandPlayer acc winner.seatIndex (fun p => winChips p pot.amount))
      state.players
    let awardEvents := state.pots.enum.map
      (fun ip => GameEvent.PotAwarded winner.seatIndex ip.2.amount ip.1)
    .ok { state with
            phase := .Complete
            players := players2
            pots := []
            bettingRound := none
            events := state.events ++ awardEvents ++ [GameEvent.HandEnded] }

/-- hand.ts `dealAndStartRound` for the river (`nextPhase = "River"`): burn
one, deal one; go straight to showdown when nobody can act, otherwise start
a river betting round. -/
def dealRiverStep (rank : RankOracle) (state : HandState) (canAnyoneAct : Bool) : HandState :=
  let dealt := (state.deck.drop 1).take 1
  let state2 := { state with
    phase := Phase.River
    communityCards := state.communityCards ++ dealt
    deck := state.deck.drop 2
    events := state.events ++ [GameEvent.CommunityCardsDealt dealt "River"] }
  if !canAnyoneAct then performShowdown rank state2
  else
    match getFirstToActPostflop state.seatOrder state.button state.players with
    | none => performShowdown rank state2
    | some firstToAct =>
      let br := createBettingRound "River" state2.players firstToAct 0 state.forcedBets.bigBlind
      { state2 with bettingRound := some br }

/-- hand.ts `dealAndStartRound` for the turn. -/
def dealTurnStep (rank : RankOracle) (state : HandState) (canAnyoneAct : Bool) : HandState :=
  let dealt := (state.deck.drop 1).take 1
  let state2 := { state with
    phase := Phase.Turn
    communityCards := state.communityCards ++ dealt
    deck := state.deck.drop 2
    events := state.events ++ [GameEvent.CommunityCardsDealt dealt "Turn"] }
  if !canAnyoneAct then dealRiverStep rank state2 false
  else
    match getFirstToActPostflop state.seatOrder state.button state.players with
    | none => dealRiverStep rank state2 false
    | some firstToAct =>
      let br := createBettingRound "Turn" state2.players firstToAct 0 state.forcedBets.bigBlind
      { state2 with bettingRound := some br }

/-- hand.ts `dealAndStartRound` for the flop: burn one, deal three. -/
def dealFlopStep (rank : RankOracle) (state : HandState) (canAnyoneAct : Bool) : HandState :=
  let dealt := (state.deck.drop 1).take 3
  let state2 := { state with
    phase := Phase.Flop
    communityCards := state.communityCards ++ dealt
    deck := state.deck.drop 4
    events := state.events ++ [GameEvent.CommunityCardsDealt dealt "Flop"] }
  if !canAnyoneAct then dealTurnStep rank state2 false
  else
    match getFirstToActPostflop state.seatOrder state.button state.players with
    | none => dealTurnStep rank state2 false
    | some firstToAct =>
      let br := createBettingRound "Flop" state2.players firstToAct 0 state.forcedBets.bigBlind
      { state2 with bettingRound := some br }

/-- hand.ts `advancePhase`: collect bets into the pots, reset current bets,
then either award everything to the last player, advance a street, or run
the showdown. -/
def advancePhase (rank : RankOracle) (state : HandState) : Except PokerError HandState :=
  let roundName :=
    match state.bettingRound with
    | some br => br.name
    | none => phaseToString state.phase
  let collected := collectBets (state.players.map toBettingPlayer) state.pots
  let playersAfterCollect := state.players.map (fun p =>
    match collected.2.find? (fun cp => cp.seatIndex == p.seatIndex) with
    | none => p
    | some bp => { p with currentBet := bp.currentBet, isFolded := bp.isFolded, isAllIn := bp.isAllIn })
  let playersReset := playersAfterCollect.map collectBet
  let baseState := { state with
    players := playersReset
    pots := collected.1
    bettingRound := none
    events := state.events ++ [GameEvent.BettingRoundEnded roundName] }
  if countActive playersReset ≤ 1 then awardToLastPlayer baseState
  else
    let canAnyoneAct := playersReset.any canAct
    match state.phase with
    | .Preflop => .ok (dealFlopStep rank baseState canAnyoneAct)
    | .Flop => .ok (dealTurnStep rank baseState canAnyoneAct)
    | .Turn => .ok (dealRiverStep rank baseState canAnyoneAct)
    | .River => .ok (performShowdown rank baseState)
    | _ => .error (.InvalidGameState (phaseToString state.phase) "Cannot advance from phase")

/-- hand.ts `act`: phase guard, betting-round guard, forward to betting.ts
`applyAction`, then auto-advance when the round completed. -/
def handAct (rank : RankOracle) (state : HandState) (seat : Nat) (action : Action) :
    Except PokerError HandState :=
  if state.phase = Phase.Complete ∨ state.phase = Phase.Showdown then
    .error (.InvalidGameState (phaseToString state.phase) "Cannot act during this phase")
  else
    match state.bettingRound with
    | none => .error (.InvalidGameState (phaseToString state.phase) "No active betting round")
    | some br =>
      match applyAction br seat action with
      | .error e => .error e
      | .ok (newBettingRound, actionEvents) =>
        let updatedState := { state with
          players := newBettingRound.players
          bettingRound := some newBettingRound
          events := state.events ++ actionEvents }
        if newBettingRound.isComplete then advancePhase rank updatedState
        else .ok updatedState

/-- hand.ts `isComplete`. -/
def handIsComplete (state : HandState) : Bool :=
  state.phase == Phase.Complete

/-- hand.ts `startHand`, with the shuffled deck passed explicitly (deck.ts
`shuffled` is the engine's only effect; any permutation of `ALL_CARDS` is a
possible outcome).  Requires at least two active players; posts blinds
(short stacks post `min(blind, chips)`); deals hole cards; creates the
preflop betting round with `biggestBet = bbAmount, minRaise = bigBlind`. -/
def startHand (players : List Player) (button : Nat) (forcedBets : ForcedBets)
    (deck : List Card) (handId : String) : Except PokerError HandState :=
  let seatOrder := getPositionalSeatOrder players button
  if seatOrder.length < 2 then
    .error (.InvalidGameState "startHand" "Need at least 2 active players")
  else
    let (holeCardsMap, deckAfterDeal) := dealHoleCards deck seatOrder
    let players1 := holeCardsMap.foldl
      (fun acc sc => updateHandPlayer acc sc.1 (fun p => dealCards p sc.2)) players
    let isHeadsUp := seatOrder.length == 2
    let sbSeat := if isHeadsUp then seatOrder.getD 0 0 else seatOrder.getD 1 0
    let bbSeat := if isHeadsUp then seatOrder.getD 1 0 else seatOrder.getD 2 0
    match players1.find? (fun p => p.seatIndex == sbSeat) with
    | none => .error (.InvalidGameState "startHand" "Small blind player not found")
    | some sbPlayer =>
      let sbAmount := Nat.min forcedBets.smallBlind sbPlayer.chips
      let players2 := updateHandPlayer players1 sbSeat (fun p => placeBet p sbAmount)
      match players2.find? (fun p => p.seatIndex == bbSeat) with
      | none => .error (.InvalidGameState "startHand" "Big blind player not found")
      | some bbPlayer =>
        let bbAmount := Nat.min forcedBets.bigBlind bbPlayer.chips
        let players3 := updateHandPlayer players2 bbSeat (fun p => placeBet p bbAmount)
        let events :=
          [GameEvent.HandStarted handId button seatOrder,
           GameEvent.BlindsPosted sbSeat sbAmount bbSeat bbAmount] ++
            seatOrder.map GameEvent.HoleCardsDealt
        let firstToAct :=
          if isHeadsUp then seatOrder.getD 0 0
          else
            let bbIdx := seatOrder.findIdx (fun s => s == bbSeat)
            seatOrder.getD ((bbIdx + 1) % seatOrder.length) 0
        let bettingRound :=
          createBettingRound "Preflop" players3 firstToAct bbAmount forcedBets.bigBlind
        .ok { handId := handId
              phase := .Preflop
              players := players3
              communityCards := []
              deck := deckAfterDeal
              pots := []
              bettingRound := some bettingRound
              button := button
              forcedBets := forcedBets
              events := events
              seatOrder := seatOrder }

/-- Fold hand.ts `act` over a list of `(seat, action)` pairs. -/
def runActs (rank : RankOracle) (start : Except PokerError HandState)
    (actions : List (Nat × Action)) : Except PokerError HandState :=
  actions.foldl (fun acc sa => acc.bind (fun st => handAct rank st sa.1 sa.2)) start

/-- Total chips in play within a hand state: stacks plus outstanding bets
plus pot amounts (the quantity of spec §8 invariant 1). -/
def handChipSum (state : HandState) : Nat :=
  (state.players.map (·.chips)).sum + (state.players.map (·.currentBet)).sum +
    (state.pots.map (·.amount)).sum

/-! ## table.ts -/

/-- table.ts `TableState` (seats kept as an association list keyed by
seat index, mirroring the `HashMap<SeatIndex, Player>`). -/
structure TableState where
  maxSeats : Nat
  forcedBets : ForcedBets
  seats : List (Nat × Player)
  button : Option Nat
  currentHand : Option HandState
  handCount : Nat
  events : List GameEvent
deriving DecidableEq, Repr

/-- table.ts `act`: require an active hand, forward to hand.ts `act`, and on
hand completion copy chip counts back to the seats (removing busted
players), clear the hand, and merge the hand's events. -/
def tableAct (rank : RankOracle) (state : TableState) (seat : Nat) (action : Action) :
    Except PokerError TableState :=
  match state.currentHand with
  | none => .error .NoHandInProgress
  | some hand =>
    match handAct rank hand seat action with
    | .error e => .error e
    | .ok newHandState =>
      if handIsComplete newHandState then
        let newSeats := newHandState.players.foldl
          (fun acc handPlayer =>
            match acc.find? (fun kv => kv.1 == handPlayer.seatIndex) with
            | none => acc
            | some kv =>
              if handPlayer.chips == 0 then
                acc.filter (fun kv2 => kv2.1 ≠ handPlayer.seatIndex)
              else
                acc.map (fun kv2 =>
                  if kv2.1 == handPlayer.seatIndex then
                    (kv2.1, { clearHand kv.2 with chips := handPlayer.chips })
                  else kv2))
          state.seats
        .ok { state with
                seats := newSeats
                currentHand := none
                events := state.events ++ newHandState.events }
      else .ok { state with currentHand := some newHandState }

/-! ## Claim C10: placeBet conservation and all-in flag -/

/-- C10: for `amount ≤ chips`, `placeBet` preserves `chips + currentBet`,
leaves seat, folded flag and hole cards unchanged, and sets `isAllIn`
exactly when the resulting stack is zero (so a zero-chip player is marked
all-in even by a zero-amount bet). -/
theorem placeBet_conservation (p : Player) (amount : Nat) (h : amount ≤ p.chips) :
    (placeBet p amount).chips + (placeBet p amount).currentBet = p.chips + p.currentBet ∧
    (placeBet p amount).seatIndex = p.seatIndex ∧
    (placeBet p amount).isFolded = p.isFolded ∧
    (placeBet p amount).holeCards = p.holeCards ∧
    ((placeBet p amount).isAllIn = true ↔ (placeBet p amount).chips = 0) := by
  unfold placeBet
  refine ⟨by dsimp only; omega, rfl, rfl, rfl, by dsimp only; simp⟩

/-- Witness for C10 at a concrete input: a player with 5 chips betting 3. -/
theorem placeBet_conservation_witness :
    3 ≤ (createPlayer 0 5).chips ∧
      ((placeBet (createPlayer 0 5) 3).chips + (placeBet (createPlayer 0 5) 3).currentBet =
          (createPlayer 0 5).chips + (createPlayer 0 5).currentBet ∧
        (placeBet (createPlayer 0 5) 3).seatIndex = (createPlayer 0 5).seatIndex ∧
        (placeBet (createPlayer 0 5) 3).isFolded = (createPlayer 0 5).isFolded ∧
        (placeBet (createPlayer 0 5) 3).holeCards = (createPlayer 0 5).holeCards ∧
        ((placeBet (createPlayer 0 5) 3).isAllIn = true ↔ (placeBet (createPlayer 0 5) 3).chips = 0)) :=
  ⟨by decide, placeBet_conservation (createPlayer 0 5) 3 (by decide)⟩

/-! ## Claim C6: legal-actions check/call computation -/

/-- C6: `computeLegalActions` returns `canCheck` iff the player's current
bet matches the biggest bet, and returns `callAmount = biggestBet -
currentBet` exactly when that gap is positive and the stack covers it
(absent otherwise). -/
theorem computeLegalActions_check_call (chips currentBet biggestBet inc : Nat) (hasBet : Bool) :
    ((computeLegalActions chips currentBet biggestBet inc hasBet).canCheck = true ↔
        biggestBet ≤ currentBet) ∧
      ((computeLegalActions chips currentBet biggestBet inc hasBet).callAmount =
          some (biggestBet - currentBet) ↔
        currentBet < biggestBet ∧ biggestBet - currentBet ≤ chips) ∧
      ((computeLegalActions chips currentBet biggestBet inc hasBet).callAmount = none ↔
        ¬(currentBet < biggestBet ∧ biggestBet - currentBet ≤ chips)) := by
  unfold computeLegalActions
  dsimp only
  refine ⟨by simp [ge_iff_le], ?_, ?_⟩
  · constructor
    · intro hsome
      by_cases hc : (decide ((biggestBet : Int) - (currentBet : Int) > 0) &&
          decide ((chips : Int) ≥ (biggestBet : Int) - (currentBet : Int))) = true
      · simp only [decide_eq_true_eq, Bool.and_eq_true] at hc
        omega
      · rw [if_neg hc] at hsome
        cases hsome
    · intro hgap
      rw [if_pos (by simp only [decide_eq_true_eq, Bool.and_eq_true]; omega)]
      have : ((biggestBet : Int) - (currentBet : Int)).toNat = biggestBet - currentBet := by
        omega
      rw [this]
  · constructor
    · intro hnone
      by_cases hc : (decide ((biggestBet : Int) - (currentBet : Int) > 0) &&
          decide ((chips : Int) ≥ (biggestBet : Int) - (currentBet : Int))) = true
      · rw [if_pos hc] at hnone
        cases hnone
      · simp only [decide_eq_true_eq, Bool.and_eq_true] at hc
        omega
    · intro hgap
      rw [if_neg (by simp only [decide_eq_true_eq, Bool.and_eq_true]; omega)]

/-! ## Claim C9: card string round-trip -/

theorem cardFromString_toPokersolverString :
    ∀ c ∈ ALL_CARDS, cardFromString (toPokersolverString c) = .ok c := by decide

/-- C9: on the 52-card universe, `toPokersolverString` round-trips through
`cardFromString`, and is injective (so the pair is a bijection between
`ALL_CARDS` and its image). -/
theorem card_string_roundtrip :
    ∀ c ∈ ALL_CARDS, cardFromString (toPokersolverString c) = .ok c ∧
      ∀ c2 ∈ ALL_CARDS, toPokersolverString c = toPokersolverString c2 → c = c2 := by
  intro c hc
  refine ⟨cardFromString_toPokersolverString c hc, fun c2 hc2 heq => ?_⟩
  have h1 := cardFromString_toPokersolverString c hc
  have h2 := cardFromString_toPokersolverString c2 hc2
  rw [heq, h2] at h1
  injection h1 with h3
  exact h3.symm

/-- Witness for C9 at the ace of spades. -/
theorem card_string_roundtrip_witness :
    (Card.mk 14 's') ∈ ALL_CARDS ∧
      (cardFromString (toPokersolverString (Card.mk 14 's')) = .ok (Card.mk 14 's') ∧
        ∀ c2 ∈ ALL_CARDS,
          toPokersolverString (Card.mk 14 's') = toPokersolverString c2 → (Card.mk 14 's') = c2) :=
  ⟨by decide, card_string_roundtrip (Card.mk 14 's') (by decide)⟩

/-! ## Claim C2: collectBets conservation -/

theorem foldl_ite_add_eq_sum_map {α : Type} (P : α → Prop) [DecidablePred P] (f : α → Nat)
    (l : List α) (acc : Nat) :
    l.foldl (fun a p => if P p then a + f p else a) acc =
      acc + (l.map (fun p => if P p then f p else 0)).sum := by
  induction l generalizing acc with
  | nil => simp
  | cons x xs ih =>
    by_cases hx : P x
    · simp [hx, ih, Nat.add_assoc]
    · simp [hx, ih]

theorem sum_map_sub_add {α : Type} (f g : α → Nat) (l : List α)
    (h : ∀ a ∈ l, g a ≤ f a) :
    (l.map (fun a => f a - g a)).sum + (l.map g).sum = (l.map f).sum := by
  induction l with
  | nil => simp
  | cons x xs ih =>
    simp only [List.map_cons, List.sum_cons]
    have h1 := h x (List.mem_cons_self _ _)
    have h2 := ih (fun a ha => h a (List.mem_cons_of_mem _ ha))
    omega

theorem sum_bet_split (ps : List BettingPlayer) (m : Nat) :
    (ps.map (fun p => if 0 < p.currentBet then Nat.min p.currentBet m else 0)).sum +
      (ps.map (fun p =>
        p.currentBet - (if 0 < p.currentBet then Nat.min p.currentBet m else 0))).sum =
      (ps.map (·.currentBet)).sum := by
  induction ps with
  | nil => simp
  | cons x xs ih =>
    simp only [List.map_cons, List.sum_cons]
    have hx : (if 0 < x.currentBet then Nat.min x.currentBet m else 0) ≤ x.currentBet := by
      split
      · exact Nat.min_le_left _ _
      · exact Nat.zero_le _
    omega

/-- A single sweep iteration moves exactly the emitted pot amount out of the
outstanding bets. -/
theorem sweep_step_conserve (ps : List BettingPlayer) :
    sweepAmount ps + ((sweepUpdate ps).map (·.currentBet)).sum =
      (ps.map (·.currentBet)).sum := by
  unfold sweepAmount sweepUpdate
  rw [foldl_ite_add_eq_sum_map]
  have hbets :
      ((ps.map (fun p =>
          if 0 < p.currentBet then
            { p with currentBet := p.currentBet - Nat.min p.currentBet (sweepMin ps) }
          else p)).map (·.currentBet)).sum =
        (ps.map (fun p =>
          p.currentBet - (if 0 < p.currentBet then Nat.min p.currentBet (sweepMin ps) else 0))).sum := by
    rw [List.map_map]
    congr 1
    apply List.map_congr_left
    intro p _
    by_cases hp : 0 < p.currentBet
    · simp [hp]
    · simp [hp]
  rw [hbets]
  have hsplit := sum_bet_split ps (sweepMin ps)
  omega

theorem sweepPots_sum_aux (n : Nat) : ∀ ps : List BettingPlayer,
    (ps.map (·.currentBet)).sum ≤ n →
    ((sweepPots ps).map (·.amount)).sum = (ps.map (·.currentBet)).sum := by
  induction n with
  | zero =>
    intro ps hps
    have hany : ¬ (ps.any (fun p => decide (0 < p.currentBet)) = true) := by
      intro hany
      obtain ⟨p₀, hp₀mem, hp₀⟩ := List.any_eq_true.mp hany
      have hp₀pos : 0 < p₀.currentBet := by simpa using hp₀
      have hle : p₀.currentBet ≤ (ps.map (·.currentBet)).sum :=
        List.single_le_sum (fun x _ => Nat.zero_le x) _
          (List.mem_map.mpr ⟨p₀, hp₀mem, rfl⟩)
      omega
    rw [sweepPots_unfold, if_neg hany]
    have hzero : (ps.map (·.currentBet)).sum = 0 := by omega
    simp [hzero]
  | succ n ihn =>
    intro ps hps
    by_cases hany : ps.any (fun p => decide (0 < p.currentBet)) = true
    · rw [sweepPots_unfold, if_pos hany]
      simp only [List.map_cons, List.sum_cons, createPot]
      have hlt := sweepUpdate_sum_lt ps hany
      rw [ihn (sweepUpdate ps) (by omega)]
      exact sweep_step_conserve ps
    · rw [sweepPots_unfold, if_neg hany]
      have hall : ∀ p ∈ ps, p.currentBet = 0 := by
        intro p hp
        by_contra hne
        exact hany (List.any_eq_true.mpr ⟨p, hp, by simpa using Nat.pos_of_ne_zero hne⟩)
      simp only [List.map_nil, List.sum_nil]
      symm
      rw [List.sum_eq_zero]
      intro x hx
      obtain ⟨p, hp, rfl⟩ := List.mem_map.mp hx
      exact hall p hp

/-- Each sweep pot drains exactly its amount from the outstanding bets. -/
theorem sweepPots_sum (ps : List BettingPlayer) :
    ((sweepPots ps).map (·.amount)).sum = (ps.map (·.currentBet)).sum :=
  sweepPots_sum_aux _ ps (Nat.le_refl _)

/-- `mergePots` preserves the total pot amount. -/
theorem mergePots_sum (existing incoming : List Pot) :
    ((mergePots existing incoming).map (·.amount)).sum =
      (existing.map (·.amount)).sum + (incoming.map (·.amount)).sum := by
  cases incoming with
  | nil => simp [mergePots]
  | cons firstIncoming restIncoming =>
    cases hlast : existing.getLast? with
    | none =>
      have hnil : existing = [] := List.getLast?_eq_none_iff.mp hlast
      subst hnil
      simp [mergePots]
    | some lastExisting =>
      have hsplit : existing.dropLast ++ [lastExisting] = existing :=
        List.dropLast_append_getLast? _ (by rw [hlast]; rfl)
      simp only [mergePots, hlast]
      split
      · simp only [createPot, List.map_append, List.sum_append, List.map_cons, List.sum_cons,
          List.map_nil, List.sum_nil]
        conv_rhs => rw [← hsplit]
        simp only [List.map_append, List.sum_append, List.map_cons, List.sum_cons,
          List.map_nil, List.sum_nil]
        omega
      · simp only [List.map_append, List.sum_append, List.map_cons, List.sum_cons,
          List.map_nil, List.sum_nil]

/-- C2: the pots returned by `collectBets` total the outstanding bets plus
the existing pots, and every returned player has `currentBet = 0`. -/
theorem collectBets_conservation (players : List BettingPlayer) (existingPots : List Pot) :
    (((collectBets players existingPots).1.map (·.amount)).sum =
        (players.map (·.currentBet)).sum + (existingPots.map (·.amount)).sum) ∧
      ∀ p ∈ (collectBets players existingPots).2, p.currentBet = 0 := by
  constructor
  · unfold collectBets
    rw [mergePots_sum, sweepPots_sum]
    omega
  · intro p hp
    unfold collectBets at hp
    obtain ⟨q, _, rfl⟩ := List.mem_map.mp hp
    rfl

/-! ## Claim C7: folded ineligibility -/

/-- Every seat in the eligible set of a sweep-produced pot is the seat of a
non-folded input player. -/
theorem sweepPotsFuel_eligible : ∀ (fuel : Nat) (ps : List BettingPlayer),
    ∀ pot ∈ sweepPotsFuel fuel ps, ∀ s ∈ pot.eligibleSeats,
      ∃ q ∈ ps, q.seatIndex = s ∧ q.isFolded = false := by
  intro fuel
  induction fuel with
  | zero => intro ps pot hpot; cases hpot
  | succ fuel ih =>
    intro ps pot hpot s hs
    simp only [sweepPotsFuel] at hpot
    by_cases hany : ps.any (fun p => decide (0 < p.currentBet)) = true
    · rw [if_pos hany] at hpot
      rcases List.mem_cons.mp hpot with rfl | hpot2
      · simp only [createPot] at hs
        unfold sweepEligible at hs
        obtain ⟨q, hq, rfl⟩ := List.mem_map.mp hs
        have hmem := List.mem_filter.mp hq
        refine ⟨q, hmem.1, rfl, ?_⟩
        have hpred := hmem.2
        simp only [Bool.and_eq_true, Bool.not_eq_true'] at hpred
        exact hpred.2
      · obtain ⟨q, hq, hseat, hfold⟩ := ih (sweepUpdate ps) pot hpot2 s hs
        unfold sweepUpdate at hq
        obtain ⟨q0, hq0, rfl⟩ := List.mem_map.mp hq
        have hpres : (if 0 < q0.currentBet then
            { q0 with currentBet := q0.currentBet - Nat.min q0.currentBet (sweepMin ps) }
          else q0).seatIndex = q0.seatIndex ∧
            (if 0 < q0.currentBet then
              { q0 with currentBet := q0.currentBet - Nat.min q0.currentBet (sweepMin ps) }
            else q0).isFolded = q0.isFolded := by
          split
          · exact ⟨rfl, rfl⟩
          · exact ⟨rfl, rfl⟩
        exact ⟨q0, hq0, by rw [← hpres.1]; exact hseat, by rw [← hpres.2]; exact hfold⟩
    · rw [if_neg hany] at hpot
      cases hpot

/-- Every pot of a merge result takes its eligible set from an existing pot
or from an incoming pot. -/
theorem mergePots_eligible_mem (existing incoming : List Pot) :
    ∀ pot ∈ mergePots existing incoming,
      (∃ pe ∈ existing, pot.eligibleSeats = pe.eligibleSeats) ∨
        (∃ pi ∈ incoming, pot.eligibleSeats = pi.eligibleSeats) := by
  intro pot hpot
  cases incoming with
  | nil =>
    exact Or.inl ⟨pot, hpot, rfl⟩
  | cons firstIncoming restIncoming =>
    cases hlast : existing.getLast? with
    | none =>
      have hnil : existing = [] := List.getLast?_eq_none_iff.mp hlast
      subst hnil
      simp only [mergePots] at hpot
      exact Or.inr ⟨pot, hpot, rfl⟩
    | some lastExisting =>
      have hlastMem : lastExisting ∈ existing := by
        have := List.dropLast_append_getLast? lastExisting (by rw [hlast]; rfl)
        rw [← this]
        exact List.mem_append_right _ (by simp)
      simp only [mergePots, hlast] at hpot
      split at hpot
      · rcases List.mem_append.mp hpot with hleft | hright
        · exact Or.inl ⟨pot, List.dropLast_subset _ hleft, rfl⟩
        · rcases List.mem_cons.mp hright with rfl | hrest
          · exact Or.inl ⟨lastExisting, hlastMem, rfl⟩
          · exact Or.inr ⟨pot, List.mem_cons_of_mem _ hrest, rfl⟩
      · rcases List.mem_append.mp hpot with hleft | hright
        · exact Or.inl ⟨pot, hleft, rfl⟩
        · exact Or.inr ⟨pot, hright, rfl⟩

/-- C7 counterexample: `collectBets` passes existing pots through without
filtering, so a folded player's seat can appear in an output pot's eligible
set (here: a folded seat-0 player and an existing pot with eligible `[0]`). -/
theorem collectBets_folded_counterexample :
    ∃ pot ∈ (collectBets [BettingPlayer.mk 0 0 true false] [Pot.mk 5 [0]]).1,
      ∃ s ∈ pot.eligibleSeats,
        ∃ p ∈ [BettingPlayer.mk 0 0 true false], p.seatIndex = s ∧ p.isFolded = true := by
  decide

/-- C7 amended: newly-created pots never hold a folded seat, so whenever the
existing pots are likewise clean (and seats are unique), no pot returned by
`collectBets` holds a seat belonging to a folded player. -/
theorem collectBets_folded_ineligible (players : List BettingPlayer) (existingPots : List Pot)
    (hnodup : (players.map (·.seatIndex)).Nodup)
    (hexisting : ∀ pot ∈ existingPots, ∀ s ∈ pot.eligibleSeats,
      ∀ p ∈ players, p.seatIndex = s → p.isFolded = false) :
    ∀ pot ∈ (collectBets players existingPots).1, ∀ s ∈ pot.eligibleSeats,
      ∀ p ∈ players, p.seatIndex = s → p.isFolded = false := by
  intro pot hpot s hs p hp hpseat
  rcases mergePots_eligible_mem existingPots (sweepPots players) pot hpot with
    ⟨pe, hpe, helig⟩ | ⟨pi, hpi, helig⟩
  · exact hexisting pe hpe s (helig ▸ hs) p hp hpseat
  · obtain ⟨q, hq, hqseat, hqfold⟩ :=
      sweepPotsFuel_eligible _ players pi hpi s (helig ▸ hs)
    have hpq : p = q :=
      List.inj_on_of_nodup_map hnodup hp hq (by rw [hpseat, hqseat])
    rw [hpq]
    exact hqfold

/-- Witness for the amended C7 at a concrete input: a folded bettor funds the
pot but is not eligible. -/
theorem collectBets_folded_ineligible_witness :
    (([BettingPlayer.mk 0 10 true false, BettingPlayer.mk 1 10 false false,
        BettingPlayer.mk 2 10 false false].map (·.seatIndex)).Nodup ∧
      (∀ pot ∈ ([] : List Pot), ∀ s ∈ pot.eligibleSeats,
        ∀ p ∈ [BettingPlayer.mk 0 10 true false, BettingPlayer.mk 1 10 false false,
          BettingPlayer.mk 2 10 false false], p.seatIndex = s → p.isFolded = false)) ∧
      ∀ pot ∈ (collectBets [BettingPlayer.mk 0 10 true false,
          BettingPlayer.mk 1 10 false false, BettingPlayer.mk 2 10 false false] []).1,
        ∀ s ∈ pot.eligibleSeats,
          ∀ p ∈ [BettingPlayer.mk 0 10 true false, BettingPlayer.mk 1 10 false false,
            BettingPlayer.mk 2 10 false false], p.seatIndex = s → p.isFolded = false :=
  ⟨⟨by decide, by decide⟩,
    collectBets_folded_ineligible _ _ (by decide) (by decide)⟩

/-! ## Claim C4: odd-chip allocation in awardPots -/

theorem sum_ite_single (l : List Nat) (r : Nat) (hr : r ∈ l) (hnd : l.Nodup) (a b : Nat) :
    (l.map (fun s => if r = s then a + b else a)).sum = a * l.length + b := by
  induction l with
  | nil => cases hr
  | cons x xs ih =>
    simp only [List.map_cons, List.sum_cons, List.length_cons]
    rcases List.mem_cons.mp hr with rfl | hmem
    · rw [if_pos rfl]
      have hnotmem : r ∉ xs := (List.nodup_cons.mp hnd).1
      have hconst : (xs.map (fun s => if r = s then a + b else a)).sum = a * xs.length := by
        clear ih hr hnd
        induction xs with
        | nil => simp
        | cons y ys ih2 =>
          simp only [List.map_cons, List.sum_cons, List.length_cons]
          have hry : r ≠ y := fun hcontra => hnotmem (hcontra ▸ List.mem_cons_self _ _)
          rw [if_neg hry, ih2 (fun hcontra => hnotmem (List.mem_cons_of_mem _ hcontra))]
          ring
      rw [hconst]
      ring
    · have hrx : r ≠ x := fun hcontra => (List.nodup_cons.mp hnd).1 (hcontra ▸ hmem)
      rw [if_neg hrx, ih hmem (List.nodup_cons.mp hnd).2]
      ring

/-- C4: for a pot with two or more contenders, `awardPots` pays each tied
winner `share = amount / |winners|`, except that the recipient `r` — the
first seat of `seatOrder` rotated to start just after the button that
belongs to the winner set — receives `share + remainder`; the awards cover
exactly the winner seats and total exactly the pot amount. -/
theorem awardPots_odd_chip (handRank : Nat → Option Int) (buttonSeat : Nat)
    (seatOrder : List Nat) (pot : Pot) (r : Nat)
    (hnodup : pot.eligibleSeats.Nodup)
    (htie : 2 ≤ (potContenders handRank pot).length)
    (hrecip : (clockwiseOrder buttonSeat seatOrder).find?
        (fun s => (potWinners handRank pot).contains s) = some r) :
    awardPots [pot] handRank buttonSeat seatOrder =
      (potWinners handRank pot).map (fun s =>
        (s, if r = s then
              pot.amount / (potWinners handRank pot).length +
                (pot.amount -
                  pot.amount / (potWinners handRank pot).length *
                    (potWinners handRank pot).length)
            else pot.amount / (potWinners handRank pot).length)) ∧
      ((awardPots [pot] handRank buttonSeat seatOrder).map Prod.snd).sum = pot.amount ∧
      r ∈ potWinners handRank pot := by
  have hwin_nodup : (potWinners handRank pot).Nodup := by
    unfold potWinners potContenders
    exact (hnodup.filter _).filter _
  have hrmem : r ∈ potWinners handRank pot := by
    have := List.find?_some hrecip
    simpa using this
  have hshape : awardsForPot handRank buttonSeat seatOrder pot =
      (potWinners handRank pot).map (fun s =>
        (s, if r = s then
              pot.amount / (potWinners handRank pot).length +
                (pot.amount -
                  pot.amount / (potWinners handRank pot).length *
                    (potWinners handRank pot).length)
            else pot.amount / (potWinners handRank pot).length)) := by
    unfold awardsForPot
    rcases hc : potContenders handRank pot with _ | ⟨c1, _ | ⟨c2, cs⟩⟩
    · rw [hc] at htie
      simp at htie
    · rw [hc] at htie
      simp at htie
    · dsimp only
      apply List.map_congr_left
      intro s _
      rw [hrecip]
      by_cases hrs : r = s
      · subst hrs
        simp
      · have : ((some r == some s) : Bool) = false := by
          simp only [beq_eq_false_iff_ne, ne_eq, Option.some.injEq]
          exact hrs
        rw [if_neg (by simp [this]), if_neg hrs]
  have haward : awardPots [pot] handRank buttonSeat seatOrder =
      awardsForPot handRank buttonSeat seatOrder pot := by
    simp [awardPots]
  refine ⟨haward ▸ hshape, ?_, hrmem⟩
  rw [haward, hshape]
  rw [List.map_map]
  have hcomp : (Prod.snd ∘ fun s =>
      ((s : Nat), if r = s then
          pot.amount / (potWinners handRank pot).length +
            (pot.amount -
              pot.amount / (potWinners handRank pot).length *
                (potWinners handRank pot).length)
        else pot.amount / (potWinners handRank pot).length)) =
      (fun s => if r = s then
          pot.amount / (potWinners handRank pot).length +
            (pot.amount -
              pot.amount / (potWinners handRank pot).length *
                (potWinners handRank pot).length)
        else pot.amount / (potWinners handRank pot).length) := rfl
  rw [hcomp, sum_ite_single _ r hrmem hwin_nodup]
  have hdiv : pot.amount / (potWinners handRank pot).length *
      (potWinners handRank pot).length ≤ pot.amount := Nat.div_mul_le_self _ _
  omega

/-- Witness for C4 at the spec's S5 scenario: pot of 301, seats 0 and 2 tied
at rank 5 (seat 1 at rank 1), button seat 1, seat order `[0,1,2,3]`; seat 2
receives 151 and seat 0 receives 150. -/
theorem awardPots_odd_chip_witness :
    ((Pot.mk 301 [0, 1, 2]).eligibleSeats.Nodup ∧
      2 ≤ (potContenders
        (fun s => if s = 0 ∨ s = 2 then some 5 else if s = 1 then some 1 else none)
        (Pot.mk 301 [0, 1, 2])).length ∧
      (clockwiseOrder 1 [0, 1, 2, 3]).find?
        (fun s => (potWinners
          (fun s2 => if s2 = 0 ∨ s2 = 2 then some 5 else if s2 = 1 then some 1 else none)
          (Pot.mk 301 [0, 1, 2])).contains s) = some 2) ∧
      awardPots [Pot.mk 301 [0, 1, 2]]
          (fun s => if s = 0 ∨ s = 2 then some 5 else if s = 1 then some 1 else none)
          1 [0, 1, 2, 3] = [(0, 150), (2, 151)] := by
  refine ⟨⟨by decide, by decide, by decide⟩, ?_⟩
  have h := awardPots_odd_chip
    (fun s => if s = 0 ∨ s = 2 then some 5 else if s = 1 then some 1 else none)
    1 [0, 1, 2, 3] (Pot.mk 301 [0, 1, 2]) 2 (by decide) (by decide) (by decide)
  rw [h.1]
  decide

/-! ## Claim C3: short all-in and the acted set -/

/-- A successful `applyAction` went through the turn check and validation
and returned exactly the result of `applyActionCore` on the acting player. -/
theorem applyAction_ok_shape (st : BettingRoundState) (seat : Nat) (a : Action)
    (out : BettingRoundState) (evs : List GameEvent)
    (hok : applyAction st seat a = .ok (out, evs)) :
    ∃ player, getPlayer st seat = some player ∧
      applyActionCore st seat player a = (out, evs) := by
  unfold applyAction at hok
  split at hok
  · cases hok
  · split at hok
    · split at hok
      · cases hok
      · split at hok
        · cases hok
        · next player heq =>
          injection hok with hok2
          exact ⟨player, heq, hok2⟩
    · cases hok

/-- The state component of `applyActionCore` just installs the completion
flag on top of the assembled intermediate state; every other field agrees
with the `actionSwitch` outcome. -/
theorem applyActionCore_fields (st : BettingRoundState) (seat : Nat) (player : Player)
    (a : Action) :
    (applyActionCore st seat player a).1.biggestBet = (actionSwitch st seat player a).newBiggestBet ∧
      (applyActionCore st seat player a).1.minRaise = (actionSwitch st seat player a).newMinRaise ∧
      (applyActionCore st seat player a).1.actedThisRound =
        setAdd (actionSwitch st seat player a).newActedThisRound seat := by
  unfold applyActionCore
  exact ⟨rfl, rfl, rfl⟩

/-- C3 counterexample state: seat 0 has already acted (bet 10); seat 1 is
next to act with a 15-chip stack facing `biggestBet = 10, minRaise = 10`.
Seat 1's all-in to 15 is a short all-in: the increment 5 is below the
minimum raise of 10. -/
def shortAllInState : BettingRoundState :=
  { name := "Flop"
    players := [⟨0, 90, 10, false, false, none⟩, ⟨1, 15, 0, false, false, none⟩]
    activeIndex := 0
    activeSeatOrder := [1, 0]
    biggestBet := 10
    minRaise := 10
    lastAggressor := some 0
    isComplete := false
    hasBetThisRound := true
    actedThisRound := [0] }

/-- C3 counterexample: on a short all-in (total 15 > biggestBet 10, but
increment 5 < minRaise 10) the source clears `actedThisRound`, so seat 0 —
previously in the acted set — is no longer in it after the action, contrary
to the claim that short all-ins leave acted memberships unchanged. -/
theorem shortAllIn_clears_acted_counterexample :
    (0 : Nat) ∈ shortAllInState.actedThisRound ∧
      shortAllInState.biggestBet < 0 + 15 ∧
      (0 + 15) - shortAllInState.biggestBet < shortAllInState.minRaise ∧
      (applyAction shortAllInState 1 .AllIn).map (fun res => res.1.actedThisRound) =
        .ok [1] ∧
      (applyAction shortAllInState 1 .AllIn).map (fun res => res.1.biggestBet) = .ok 15 := by
  decide

/-- C3 amended: a short all-in (total above `biggestBet` but increment below
`minRaise`) raises `biggestBet` to the total and leaves `minRaise`
unchanged, but resets `actedThisRound` to the actor alone — it re-opens
the action for previously-acted players rather than preserving their acted
flags. -/
theorem shortAllIn_resets_acted (st : BettingRoundState) (seat : Nat) (player : Player)
    (out : BettingRoundState) (evs : List GameEvent)
    (hplayer : getPlayer st seat = some player)
    (hok : applyAction st seat .AllIn = .ok (out, evs))
    (hover : st.biggestBet < player.currentBet + player.chips)
    (hshort : player.currentBet + player.chips - st.biggestBet < st.minRaise) :
    out.biggestBet = player.currentBet + player.chips ∧
      out.minRaise = st.minRaise ∧
      out.actedThisRound = [seat] := by
  obtain ⟨player2, hp2, hcore⟩ := applyAction_ok_shape st seat .AllIn out evs hok
  rw [hplayer] at hp2
  injection hp2 with hp3
  subst hp3
  have hfields := applyActionCore_fields st seat player .AllIn
  rw [hcore] at hfields
  have hunfold : actionSwitch st seat player .AllIn =
      (if st.biggestBet < player.currentBet + player.chips then
        ⟨placeBet player player.chips, player.currentBet + player.chips,
          if st.minRaise ≤ player.currentBet + player.chips - st.biggestBet then
            player.currentBet + player.chips - st.biggestBet
          else st.minRaise,
          some seat, true, [], true⟩
      else
        ⟨placeBet player player.chips, st.biggestBet, st.minRaise, st.lastAggressor,
          st.hasBetThisRound, st.actedThisRound, true⟩) := rfl
  have hswitch : actionSwitch st seat player .AllIn =
      ⟨placeBet player player.chips, player.currentBet + player.chips, st.minRaise,
        some seat, true, [], true⟩ := by
    rw [hunfold, if_pos hover, if_neg (by omega)]
  rw [hswitch] at hfields
  refine ⟨hfields.1, hfields.2.1, ?_⟩
  rw [hfields.2.2]
  rfl

/-- Witness for the amended C3 at the concrete short all-in state. -/
theorem shortAllIn_resets_acted_witness :
    (getPlayer shortAllInState 1 = some ⟨1, 15, 0, false, false, none⟩ ∧
      shortAllInState.biggestBet < (0 : Nat) + 15 ∧
      (0 : Nat) + 15 - shortAllInState.biggestBet < shortAllInState.minRaise) ∧
      ∃ out evs, applyAction shortAllInState 1 .AllIn = .ok (out, evs) ∧
        out.biggestBet = 0 + 15 ∧ out.minRaise = shortAllInState.minRaise ∧
        out.actedThisRound = [1] := by
  refine ⟨⟨by decide, by decide, by decide⟩, ?_⟩
  cases hok : applyAction shortAllInState 1 .AllIn with
  | error e =>
    have hisOk : (applyAction shortAllInState 1 .AllIn).isOk = true := by decide
    rw [hok] at hisOk
    cases hisOk
  | ok res =>
    obtain ⟨o, evs⟩ := res
    refine ⟨o, evs, rfl, ?_⟩
    exact shortAllIn_resets_acted shortAllInState 1 ⟨1, 15, 0, false, false, none⟩ o evs
      (by decide) hok (by decide) (by decide)

/-! ## Claim C5: betting-round completion condition -/

/-- `checkComplete` holds exactly when at most one non-folded player
remains, or the queue is empty, or the queue is non-empty and every queued
seat has acted (the `acted.size > 0` guard in the source is redundant in
that last case, since a non-empty queue all of whose seats are in `acted`
forces `acted` to be non-empty). -/
theorem checkComplete_iff (st : BettingRoundState) :
    checkComplete st = true ↔
      ((st.players.filter (fun p => !p.isFolded)).length ≤ 1 ∨
        st.activeSeatOrder = [] ∨
        (st.activeSeatOrder ≠ [] ∧
          ∀ s ∈ st.activeSeatOrder, s ∈ st.actedThisRound)) := by
  unfold checkComplete
  by_cases h1 : (st.players.filter (fun p => !p.isFolded)).length ≤ 1
  · simp [h1]
  · rw [if_neg h1]
    by_cases h2 : st.activeSeatOrder.isEmpty
    · rw [if_pos h2]
      simp only [List.isEmpty_iff] at h2
      simp [h1, h2]
    · rw [if_neg h2]
      simp only [List.isEmpty_iff] at h2
      constructor
      · intro hc
        split at hc
        · next hcond =>
          simp only [Bool.and_eq_true, List.all_eq_true, decide_eq_true_eq] at hcond
          refine Or.inr (Or.inr ⟨h2, fun s hs => ?_⟩)
          simpa using hcond.2 s hs
        · cases hc
      · intro hcond
        rcases hcond with hc | hc | ⟨hne, hall⟩
        · exact absurd hc h1
        · exact absurd hc h2
        · have hlen : 0 < st.actedThisRound.length := by
            cases hq : st.activeSeatOrder with
            | nil => exact absurd hq hne
            | cons s0 rest =>
              have hs0 : s0 ∈ st.actedThisRound := hall s0 (hq ▸ List.mem_cons_self _ _)
              exact List.length_pos.mpr (List.ne_nil_of_mem hs0)
          have hbool : (decide (0 < st.actedThisRound.length) &&
              st.activeSeatOrder.all (fun s => st.actedThisRound.contains s)) = true := by
            rw [Bool.and_eq_true]
            refine ⟨by simpa using hlen, List.all_eq_true.mpr fun s hs => ?_⟩
            simpa using hall s hs
          rw [if_pos hbool]

/-- C5: after a successful `applyAction`, the resulting `isComplete` flag
holds iff at most one non-folded player remains, or the active queue is
empty, or the queue is non-empty and every seat in it is in the acted set. -/
theorem applyAction_complete_iff (st : BettingRoundState) (seat : Nat) (a : Action)
    (out : BettingRoundState) (evs : List GameEvent)
    (hok : applyAction st seat a = .ok (out, evs)) :
    out.isComplete = true ↔
      ((out.players.filter (fun p => !p.isFolded)).length ≤ 1 ∨
        out.activeSeatOrder = [] ∨
        (out.activeSeatOrder ≠ [] ∧
          ∀ s ∈ out.activeSeatOrder, s ∈ out.actedThisRound)) := by
  obtain ⟨player, _, hcore⟩ := applyAction_ok_shape st seat a out evs hok
  have hself : out.isComplete = checkComplete out := by
    have h1 : (applyActionCore st seat player a).1.isComplete =
        checkComplete (applyActionCore st seat player a).1 := by
      unfold applyActionCore
      rfl
    rw [hcore] at h1
    exact h1
  rw [hself]
  exact checkComplete_iff out

/-- A concrete two-player betting round at the start of a flop, used as the
C5 witness input. -/
def checkWitnessState : BettingRoundState :=
  { name := "Flop"
    players := [⟨0, 50, 0, false, false, none⟩, ⟨1, 50, 0, false, false, none⟩]
    activeIndex := 0
    activeSeatOrder := [0, 1]
    biggestBet := 0
    minRaise := 2
    lastAggressor := none
    isComplete := false
    hasBetThisRound := false
    actedThisRound := [] }

/-- Witness for C5: a heads-up check by the first of two queued players does
not complete the round (seat 1 has not acted yet). -/
theorem applyAction_complete_iff_witness :
    ∃ out evs,
      applyAction checkWitnessState 0 .Check = .ok (out, evs) ∧
      (out.isComplete = true ↔
        ((out.players.filter (fun p => !p.isFolded)).length ≤ 1 ∨
          out.activeSeatOrder = [] ∨
          (out.activeSeatOrder ≠ [] ∧
            ∀ s ∈ out.activeSeatOrder, s ∈ out.actedThisRound))) := by
  cases hok : applyAction checkWitnessState 0 .Check with
  | error e =>
    have hisOk : (applyAction checkWitnessState 0 .Check).isOk = true := by decide
    rw [hok] at hisOk
    cases hisOk
  | ok res =>
    obtain ⟨o, evs⟩ := res
    exact ⟨o, evs, rfl, applyAction_complete_iff _ 0 .Check o evs hok⟩

/-! ## Claim C8: error atomicity of action application -/

/-- The error tags an `act` call may return as values: `InvalidAction`,
`NotPlayersTurn`, `InvalidGameState`, `NoHandInProgress`. -/
def errIsActFailure (e : PokerError) : Prop :=
  match e with
  | .NoHandInProgress => True
  | .InvalidGameState _ _ => True
  | .NotPlayersTurn _ _ => True
  | .InvalidAction _ _ => True
  | _ => False

/-- `validateAction` fails only with `InvalidAction` values. -/
theorem validateAction_error_shape (a : Action) (legal : LegalActions) (e : PokerError)
    (h : validateAction a legal = .error e) : ∃ x y, e = .InvalidAction x y := by
  cases a <;> unfold validateAction at h <;> repeat' split at h
  all_goals (cases h <;> exact ⟨_, _, rfl⟩)

/-- `applyAction` fails only with `NotPlayersTurn` or `InvalidAction`. -/
theorem applyAction_error_shape (st : BettingRoundState) (seat : Nat) (a : Action)
    (e : PokerError) (h : applyAction st seat a = .error e) :
    (∃ s1 s2, e = .NotPlayersTurn s1 s2) ∨ (∃ x y, e = .InvalidAction x y) := by
  unfold applyAction at h
  split at h
  · injection h with h2
    exact Or.inl ⟨_, _, h2.symm⟩
  · split at h
    · split at h
      · next e2 heq =>
        injection h with h2
        exact Or.inr (h2 ▸ validateAction_error_shape _ _ _ heq)
      · split at h
        · injection h with h2
          exact Or.inl ⟨_, _, h2.symm⟩
        · cases h
    · injection h with h2
      exact Or.inl ⟨_, _, h2.symm⟩

/-- `awardToLastPlayer` fails only with `InvalidGameState`. -/
theorem awardToLastPlayer_error_shape (st : HandState) (e : PokerError)
    (h : awardToLastPlayer st = .error e) : ∃ x y, e = .InvalidGameState x y := by
  unfold awardToLastPlayer at h
  split at h
  · injection h with h2
    exact ⟨_, _, h2.symm⟩
  · cases h

/-- `advancePhase` fails only with `InvalidGameState`. -/
theorem advancePhase_error_shape (rank : RankOracle) (st : HandState) (e : PokerError)
    (h : advancePhase rank st = .error e) : ∃ x y, e = .InvalidGameState x y := by
  unfold advancePhase at h
  repeat' (first | (split at h) | (dsimp only at h))
  all_goals
    first
      | (cases h <;> exact ⟨_, _, rfl⟩)
      | exact awardToLastPlayer_error_shape _ _ h

/-- hand.ts `act` fails only with `InvalidGameState`, `NotPlayersTurn` or
`InvalidAction` values. -/
theorem handAct_error_shape (rank : RankOracle) (st : HandState) (seat : Nat) (a : Action)
    (e : PokerError) (h : handAct rank st seat a = .error e) :
    (∃ x y, e = .InvalidGameState x y) ∨ (∃ s1 s2, e = .NotPlayersTurn s1 s2) ∨
      (∃ x y, e = .InvalidAction x y) := by
  unfold handAct at h
  split at h
  · injection h with h2
    exact Or.inl ⟨_, _, h2.symm⟩
  · split at h
    · injection h with h2
      exact Or.inl ⟨_, _, h2.symm⟩
    · split at h
      · next e2 heq =>
        injection h with h2
        subst h2
        exact Or.inr (applyAction_error_shape _ _ _ _ heq)
      · split at h
        · exact Or.inl (advancePhase_error_shape _ _ _ h)
        · cases h

/-- C8: every table-level `act` call either returns a new state or returns
one of the documented failure values (`NoHandInProgress`, `InvalidGameState`,
`NotPlayersTurn`, `InvalidAction`) — errors are values of the closed sum,
never anything else.  All transitions are pure value functions, so a failed
call leaves the caller's state untouched by construction: no state
accompanies an error. -/
theorem tableAct_errors_are_values (rank : RankOracle) (t : TableState) (seat : Nat)
    (a : Action) :
    (∃ t2, tableAct rank t seat a = .ok t2) ∨
      (∃ e, tableAct rank t seat a = .error e ∧ errIsActFailure e) := by
  unfold tableAct
  cases hch : t.currentHand with
  | none => exact Or.inr ⟨.NoHandInProgress, rfl, trivial⟩
  | some hand =>
    dsimp only
    cases hha : handAct rank hand seat a with
    | error e =>
      refine Or.inr ⟨e, rfl, ?_⟩
      rcases handAct_error_shape rank hand seat a e hha with
        ⟨x, y, rfl⟩ | ⟨x, y, rfl⟩ | ⟨x, y, rfl⟩ <;> trivial
    | ok newHandState =>
      refine Or.inl ?_
      dsimp only
      by_cases hc : handIsComplete newHandState = true
      · rw [if_pos hc]
        exact ⟨_, rfl⟩
      · rw [if_neg hc]
        exact ⟨_, rfl⟩

/-! ## Claim C1: chip conservation over a hand -/

/-- A rank oracle giving every hand the same rank (any oracle output is a
possible ranking; ties are what standard rankers return for identical board
situations). -/
def constRank : RankOracle := fun _ _ => 0

/-- Four players: two short stacks of 10 and two deep stacks of 100. -/
def c1Players : List Player :=
  [createPlayer 0 10, createPlayer 1 10, createPlayer 2 100, createPlayer 3 100]

/-- The hand started with button 0, blinds 1/2, and the identity shuffle
(the unshuffled `ALL_CARDS` is one possible shuffler output). -/
def c1Start : Except PokerError HandState :=
  startHand c1Players 0 ⟨1, 2, none⟩ ALL_CARDS "h1"

/-- An action sequence accepted end-to-end by hand.ts `act`: both short
stacks go all-in preflop and are called; the two deep stacks bet and call
on the flop, building a side pot only they are eligible for; on the turn
both deep stacks fold (folding is always legal, even with no bet to face).
The hand then runs out to showdown with only the two all-in players
holding hands, and the `{60, eligible {2,3}}` side pot has no contender. -/
def c1Trace : List (Nat × Action) :=
  [(3, .Call), (0, .AllIn), (1, .AllIn), (2, .Call), (3, .Call),
   (2, .Bet 30), (3, .Call), (2, .Fold), (3, .Fold)]

/-- The state after running the whole trace. -/
def c1Final : Except PokerError HandState :=
  runActs constRank c1Start c1Trace

/-- C1 fails on the code: from a legally started four-player hand (total
chips 220), the accepted action sequence `c1Trace` completes the hand with
`Σ chips + Σ current_bet + Σ pot amounts = 160`: `performShowdown` skips
the 60-chip side pot whose eligible seats (2 and 3) both folded, and those
chips vanish.  The spec's conservation invariant is the stated intent
(§8 invariant 1) and the source comments call this case impossible, but it
is reachable, so the code loses chips. -/
theorem chipConservation_failing_trace :
    c1Start.map handChipSum = .ok 220 ∧
      c1Final.map handChipSum = .ok 160 ∧
      c1Final.map (·.phase) = .ok Phase.Complete := by
  refine ⟨by decide, by decide, by decide⟩

end Holdem
